/-
  Verification of the denoise-cli sweep driver (src/main.rs) against its
  natural-language specification.

  Embedding notes.
  * The driver's numeric values are Rust `f64`.  They are modelled by the
    type `F` below: a real-number payload (`F.fin`) plus the IEEE special
    values NaN, +inf and -inf.  Finite arithmetic is exact real arithmetic:
    rounding, overflow to infinity of huge finite products, and the sign of
    zero are abstracted away (none of the verified claims depends on them).
    Special-value propagation (division by zero, `powf` on negative bases,
    infinite exponents, `powi` with exponent zero, NaN absorption) follows
    the IEEE-754 / Rust `f64` rules, which is what the claims exercise.
  * `steps` is `NonZeroUsize` in the CLI; it is modelled as `ℕ` with the
    truncated subtraction `steps - 1` matching `usize` subtraction for
    `steps ≥ 1` (the parser rejects 0, see `parseSteps`).
  * The per-λ units of work (thread bodies in the parallel branch of
    `main`, loop bodies in the sequential branch) are modelled as a pure
    function `den : F → Option α` — `none` models a panic of the unit.
    In the parallel branch a thread joined before any failure is complete
    (join waits for it); when a join surfaces a panic the process exits
    and sibling threads later in join order are killed — whether such a
    sibling finished (and saved its output) before the exit is a
    scheduling race, represented by an oracle `finished : F → Bool`.
  * The TV solver lives in the external `image_recovery` crate and is not
    part of this repository's sources; its iteration and stopping rule are
    modelled from the specification (see the `Modelled from the spec`
    comments below).
-/
import Mathlib

/-- Rust `f64` values as seen by the sweep driver: NaN, the two infinities,
and finite values carried as exact reals. -/
inductive F where
  | nan  : F
  | pinf : F
  | ninf : F
  | fin  : ℝ → F

/-- IEEE `f64` division as used by `main.rs` (e.g. `end_lambda / start_lambda`
and `1.0 / (steps - 1) as f64`): finite division is exact; division by zero
gives a signed infinity (NaN for 0/0); there is only one zero in the model,
treated as +0. -/
noncomputable def F.div : F → F → F
  | nan, _ => nan
  | _, nan => nan
  | pinf, pinf => nan
  | pinf, ninf => nan
  | ninf, pinf => nan
  | ninf, ninf => nan
  | pinf, fin b => if 0 ≤ b then pinf else ninf
  | ninf, fin b => if 0 ≤ b then ninf else pinf
  | fin _, pinf => fin 0
  | fin _, ninf => fin 0
  | fin a, fin b =>
      if b = 0 then (if a = 0 then nan else if 0 < a then pinf else ninf)
      else fin (a / b)

/-- IEEE `f64` multiplication: finite products are exact; infinity times
zero is NaN; NaN absorbs. -/
noncomputable def F.mul : F → F → F
  | nan, _ => nan
  | _, nan => nan
  | pinf, pinf => pinf
  | pinf, ninf => ninf
  | ninf, pinf => ninf
  | ninf, ninf => pinf
  | pinf, fin b => if b = 0 then nan else if 0 < b then pinf else ninf
  | fin a, pinf => if a = 0 then nan else if 0 < a then pinf else ninf
  | ninf, fin b => if b = 0 then nan else if 0 < b then ninf else pinf
  | fin a, ninf => if a = 0 then nan else if 0 < a then ninf else pinf
  | fin a, fin b => fin (a * b)

open Classical in
/-- Rust `f64::powf` (C `pow`).  `pow(1, y) = 1` and `pow(x, 0) = 1` for
every `x` including NaN; a negative finite base with a non-integer finite
exponent gives NaN, with an integer exponent it is the exact signed power;
exponent ±inf compares `|base|` with 1; the remaining special cases follow
IEEE-754 `pow`. -/
noncomputable def F.powf : F → F → F
  | fin b, nan => if b = 1 then fin 1 else nan
  | fin b, pinf =>
      if b = 1 ∨ b = -1 then fin 1
      else if -1 < b ∧ b < 1 then fin 0 else pinf
  | fin b, ninf =>
      if b = 1 ∨ b = -1 then fin 1
      else if -1 < b ∧ b < 1 then pinf else fin 0
  | fin b, fin e =>
      if e = 0 then fin 1
      else if b = 1 then fin 1
      else if 0 < b then fin (Real.rpow b e)
      else if b = 0 then (if 0 < e then fin 0 else pinf)
      else if h : ∃ n : ℤ, (n : ℝ) = e then fin (b ^ h.choose) else nan
  | nan, fin e => if e = 0 then fin 1 else nan
  | nan, _ => nan
  | pinf, fin e => if e = 0 then fin 1 else if 0 < e then pinf else fin 0
  | pinf, pinf => pinf
  | pinf, ninf => fin 0
  | pinf, nan => nan
  | ninf, fin e =>
      if e = 0 then fin 1
      else if h : ∃ n : ℤ, (n : ℝ) = e then
        (if 0 < e then (if Odd h.choose then ninf else pinf)
         else fin 0)
      else (if 0 < e then pinf else fin 0)
  | ninf, pinf => pinf
  | ninf, ninf => fin 0
  | ninf, nan => nan

/-- Rust `f64::powi` (LLVM `powi`): repeated multiplication, with
`x.powi(0) = 1.0` for every base including NaN and the infinities.  The
exponent in `main.rs` is `step as i32` with `step ≥ 0`, so a natural-number
exponent suffices. -/
noncomputable def F.powi : F → ℕ → F
  | _, 0 => fin 1
  | x, n + 1 => F.mul (F.powi x n) x

/-- IEEE comparison `a ≤ b` on `f64`: any comparison with NaN is false. -/
def F.Le : F → F → Prop
  | nan, _ => False
  | _, nan => False
  | ninf, _ => True
  | pinf, pinf => True
  | pinf, ninf => False
  | pinf, fin _ => False
  | fin _, pinf => True
  | fin _, ninf => False
  | fin a, fin b => a ≤ b

/-- Calculation of the exponent `1_f64 / (args.steps.get() - 1) as f64`
from `main.rs` line 138.  `steps - 1` is `usize` (natural) subtraction;
`steps ≥ 1` is guaranteed by the `NonZeroUsize` CLI type. -/
noncomputable def sweep_exponent (steps : ℕ) : F :=
  F.div (F.fin 1) (F.fin ((steps - 1 : ℕ) : ℝ))

/-- Calculation of `q`, `main.rs` lines 137–138:
`(end_lambda / start_lambda).powf(1 / (steps - 1))`. -/
noncomputable def sweep_q (start_lambda end_lambda : ℝ) (steps : ℕ) : F :=
  F.powf (F.div (F.fin end_lambda) (F.fin start_lambda)) (sweep_exponent steps)

/-- Calculation of the λ sequence, `main.rs` lines 141–142:
`(0..steps).map(|step| start_lambda * q.powi(step))`. -/
noncomputable def sweep_lambdas (start_lambda end_lambda : ℝ) (steps : ℕ) :
    List F :=
  (List.range steps).map
    (fun step => F.mul (F.fin start_lambda)
      (F.powi (sweep_q start_lambda end_lambda steps) step))

/-- CLI parsing of `--steps` with the `NonZeroUsize` type (`main.rs` line
75): a zero value is a parse error, nothing further runs. -/
def parseSteps (n : ℕ) : Option ℕ+ :=
  if h : 0 < n then some ⟨n, h⟩ else none

/-- Numeric part of `validate_args` (`main.rs` lines 105–111) composed
with the dispatch in `main`: if `!(start_lambda < end_lambda)` the process
exits before anything is dispatched, otherwise the λ sequence is built and
dispatched to the solver units.  The file/directory checks of
`validate_args` are I/O-dependent and outside the numeric model. -/
noncomputable def mainDispatch (start_lambda end_lambda : ℝ) (steps : ℕ+) :
    Option (List F) :=
  if start_lambda < end_lambda
  then some (sweep_lambdas start_lambda end_lambda steps) else none

/-- Solver step size τ from `denoise_and_save` (`main.rs` line 219):
`1.0 / 2_f64.sqrt()`. -/
noncomputable def denoise_tau : ℝ := 1 / Real.sqrt 2

/-- Solver step size σ from `denoise_and_save` (`main.rs` line 220):
`1_f64 / (8.0 * tau)`. -/
noncomputable def denoise_sigma : ℝ := 1 / (8 * denoise_tau)

/-- Acceleration parameter γ from `denoise_and_save` (`main.rs` line 227):
`0.35 * lambda`, computed in `f64` from the unit's λ. -/
noncomputable def denoise_gamma (lambda : F) : F := F.mul (F.fin 0.35) lambda

/-- The `(τ, σ, γ)` triple passed to `solvers::denoise_multichannel` by
`denoise_and_save` for a given λ (`main.rs` lines 219–238). -/
noncomputable def denoiseParamsF (lambda : F) : ℝ × ℝ × F :=
  (denoise_tau, denoise_sigma, denoise_gamma lambda)

/-- The per-λ units dispatched by `main`: each unit carries its λ from the
sequence and the solver parameters that `denoise_and_save` derives from
that λ alone. -/
noncomputable def sweepUnits (start_lambda end_lambda : ℝ) (steps : ℕ) :
    List (F × (ℝ × ℝ × F)) :=
  (sweep_lambdas start_lambda end_lambda steps).map
    (fun l => (l, denoiseParamsF l))

/-- Observable outcome of one run of `main`'s dispatch/collect phase:
`saved` lists the per-λ outputs written (file saves happen inside each
unit), `failure` is the λ whose abnormal termination `main` surfaces (the
`expect` panic message of `main.rs` lines 184–187 in the parallel branch,
the unit's own panic in the sequential branch), if any. -/
structure SweepOutcome (α : Type) where
  saved : List (F × α)
  failure : Option F

/-- Sequential branch of `main` (`main.rs` lines 190–202): the units run
one after the other; a unit that terminates abnormally (`den l = none`)
panics `main` on the spot, so no later unit ever runs.  Outputs of units
that completed before the failure remain saved. -/
def runSequential {α : Type} (den : F → Option α) : List F → SweepOutcome α
  | [] => ⟨[], none⟩
  | l :: ls =>
    match den l with
    | some r =>
      let rest := runSequential den ls
      ⟨(l, r) :: rest.saved, rest.failure⟩
    | none => ⟨[], some l⟩

/-- Parallel branch of `main` (`main.rs` lines 160–188): all units are
spawned before any join; `main` then joins the handles in λ order.  A unit
joined before any failure is guaranteed complete — its output is saved if
the unit succeeded.  At the first join that reports an abnormal
termination, `main` panics tagged with that unit's λ and the process
exits; sibling threads after that λ in join order have been running
concurrently and are killed at process exit, so such a sibling's output
is saved exactly when its unit succeeds and its thread finished before
the exit — a scheduling race decided by the oracle `finished` (a thread
killed mid-run saves nothing). -/
def runParallel {α : Type} (den : F → Option α) (finished : F → Bool) :
    List F → SweepOutcome α
  | [] => ⟨[], none⟩
  | l :: ls =>
    match den l with
    | some r =>
      let rest := runParallel den finished ls
      ⟨(l, r) :: rest.saved, rest.failure⟩
    | none =>
      ⟨ls.filterMap
        (fun x => if finished x then (den x).map (fun r => (x, r)) else none),
       some l⟩

/-- The `match thread::available_parallelism()` dispatch of `main.rs`
line 159: the parallel branch when parallelism is available, the
sequential fallback otherwise. -/
def mainRun {α : Type} (avail : Bool) (den : F → Option α)
    (finished : F → Bool) (ls : List F) : SweepOutcome α :=
  if avail then runParallel den finished ls else runSequential den ls

/-- A unit-of-work function used as counterexample input: the unit for
λ = NaN terminates abnormally, every other unit succeeds. -/
def denFail : F → Option ℕ := fun l =>
  match l with
  | F.nan => none
  | _ => some 0

/-- Modelled from the spec: the Image Matrix of §3, a 2-D grid of
real-valued samples with dimensions fixed by the type.  The matrix code is
in the external `image_recovery` crate, absent from this repository's
sources. -/
def Mat (m n : ℕ) : Type := Fin m → Fin n → ℝ

/-- Modelled from the spec: elementwise subtraction (§4.1 primitive). -/
noncomputable def matSub {m n : ℕ} (a b : Mat m n) : Mat m n :=
  fun i j => a i j - b i j

/-- Modelled from the spec: the matrix norm of §4.1, the sum of squares. -/
noncomputable def matNorm {m n : ℕ} (a : Mat m n) : ℝ :=
  ∑ i, ∑ j, (a i j) ^ 2

/-- Modelled from the spec: the relative change of the stopping policy in
§4.2 — `‖uₙ₊₁ - uₙ‖ / ‖uₙ‖`, taken as `‖uₙ₊₁ - uₙ‖` when `‖uₙ‖ = 0` to
avoid division by zero. -/
noncomputable def relChange {m n : ℕ} (u v : Mat m n) : ℝ :=
  if matNorm u = 0 then matNorm (matSub v u)
  else matNorm (matSub v u) / matNorm u

/-- Modelled from the spec: forward difference along columns (§4.1
`gradient`, first component), zero at the last column (Neumann). -/
noncomputable def gradX {m n : ℕ} (a : Mat m n) : Mat m n :=
  fun i j => if h : (j : ℕ) + 1 < n then a i ⟨(j : ℕ) + 1, h⟩ - a i j else 0

/-- Modelled from the spec: forward difference along rows (§4.1
`gradient`, second component), zero at the last row (Neumann). -/
noncomputable def gradY {m n : ℕ} (a : Mat m n) : Mat m n :=
  fun i j => if h : (i : ℕ) + 1 < m then a ⟨(i : ℕ) + 1, h⟩ j - a i j else 0

/-- Modelled from the spec: the divergence of a gradient field (§4.1),
the negative adjoint of the gradient — backward differences with the
one-sided boundary convention matching the zero-flux gradient. -/
noncomputable def divg {m n : ℕ} (p1 p2 : Mat m n) : Mat m n :=
  fun i j =>
    ((if (j : ℕ) + 1 < n then p1 i j else 0) -
      (if 0 < (j : ℕ) then
        p1 i ⟨(j : ℕ) - 1, Nat.lt_of_le_of_lt (Nat.sub_le _ _) j.isLt⟩
       else 0)) +
    ((if (i : ℕ) + 1 < m then p2 i j else 0) -
      (if 0 < (i : ℕ) then
        p2 ⟨(i : ℕ) - 1, Nat.lt_of_le_of_lt (Nat.sub_le _ _) i.isLt⟩ j
       else 0))

/-- Modelled from the spec: the Iteration State of §3 — primal estimate,
extrapolated point, two-component dual variable, and the current step
sizes (they change across iterations through the acceleration rule). -/
structure CPState (m n : ℕ) where
  u : Mat m n
  ubar : Mat m n
  p1 : Mat m n
  p2 : Mat m n
  tau : ℝ
  sigma : ℝ

/-- Modelled from the spec: solver initialization of §4.2 — `u₀ = f`,
`ū₀ = u₀`, `p₀ = 0`. -/
noncomputable def cpInit {m n : ℕ} (f : Mat m n) (tau sigma : ℝ) :
    CPState m n :=
  ⟨f, f, fun _ _ => 0, fun _ _ => 0, tau, sigma⟩

/-- Modelled from the spec: one iteration of the accelerated primal-dual
scheme of §4.2 — dual ascent with per-pixel projection onto the unit
ball, closed-form primal proximal step, acceleration of the step sizes,
extrapolation. -/
noncomputable def cpStep {m n : ℕ} (lam gamma : ℝ) (f : Mat m n)
    (s : CPState m n) : CPState m n :=
  let pt1 : Mat m n := fun i j => s.p1 i j + s.sigma * gradX s.ubar i j
  let pt2 : Mat m n := fun i j => s.p2 i j + s.sigma * gradY s.ubar i j
  let q1 : Mat m n := fun i j =>
    pt1 i j / max 1 (Real.sqrt ((pt1 i j) ^ 2 + (pt2 i j) ^ 2))
  let q2 : Mat m n := fun i j =>
    pt2 i j / max 1 (Real.sqrt ((pt1 i j) ^ 2 + (pt2 i j) ^ 2))
  let unew : Mat m n := fun i j =>
    (s.u i j - s.tau * divg q1 q2 i j + s.tau * lam * f i j) /
      (1 + s.tau * lam)
  let theta : ℝ := 1 / Real.sqrt (1 + 2 * gamma * s.tau)
  ⟨unew,
   fun i j => unew i j + theta * (unew i j - s.u i j),
   q1, q2, theta * s.tau, s.sigma / theta⟩

/-- Modelled from the spec: the two terminal statuses of §4.2; `exhausted`
is not an error, both statuses come with a result matrix. -/
inductive SolveStatus where
  | converged : SolveStatus
  | exhausted : SolveStatus

/-- Modelled from the spec: the stopping loop of §4.2 run with the given
remaining-iteration budget — stop `converged` as soon as the relative
change falls below the threshold, otherwise stop `exhausted` once
`max_iter` iterations have been performed; either way the result is the
latest iterate `uₙ₊₁`. -/
noncomputable def solveLoop {m n : ℕ} (step : CPState m n → CPState m n)
    (thr : ℝ) : CPState m n → ℕ → Mat m n × SolveStatus
  | s, 0 => (s.u, SolveStatus.exhausted)
  | s, 1 =>
    let t := step s
    if relChange s.u t.u < thr then (t.u, SolveStatus.converged)
    else (t.u, SolveStatus.exhausted)
  | s, k + 2 =>
    let t := step s
    if relChange s.u t.u < thr then (t.u, SolveStatus.converged)
    else solveLoop step thr t (k + 1)

/-- Modelled from the spec: the Single-channel TV Solver of §4.2 for one
channel `f` and one parameter set. -/
noncomputable def singleChannelSolve {m n : ℕ} (f : Mat m n)
    (lam tau sigma gamma : ℝ) (max_iter : ℕ) (thr : ℝ) :
    Mat m n × SolveStatus :=
  solveLoop (cpStep lam gamma f) thr (cpInit f tau sigma) max_iter

/-- The solver trajectory: the iteration state after `k` steps from the
initial state. -/
noncomputable def cpTraj {m n : ℕ} (f : Mat m n)
    (lam tau sigma gamma : ℝ) (k : ℕ) : CPState m n :=
  (cpStep lam gamma f)^[k] (cpInit f tau sigma)

/-- The constant matrix, used as concrete solver input. -/
noncomputable def constMat (m n : ℕ) (c : ℝ) : Mat m n := fun _ _ => c

theorem F.mul_nan (x : F) : F.mul x F.nan = F.nan := by
  cases x <;> rfl

theorem F.mul_fin (a b : ℝ) : F.mul (F.fin a) (F.fin b) = F.fin (a * b) := rfl

theorem F.powi_zero (x : F) : F.powi x 0 = F.fin 1 := rfl

theorem F.powi_fin (a : ℝ) (k : ℕ) : F.powi (F.fin a) k = F.fin (a ^ k) := by
  induction k with
  | zero => simp [F.powi]
  | succ n ih => rw [F.powi, ih, F.mul_fin, pow_succ]

theorem F.powi_nan (k : ℕ) (hk : 1 ≤ k) : F.powi F.nan k = F.nan := by
  cases k with
  | zero => omega
  | succ n => rw [F.powi, F.mul_nan]

theorem F.div_fin_ne (a b : ℝ) (hb : b ≠ 0) :
    F.div (F.fin a) (F.fin b) = F.fin (a / b) := by
  rw [F.div, if_neg hb]

theorem F.div_one_zero : F.div (F.fin 1) (F.fin 0) = F.pinf := by
  rw [F.div, if_pos rfl, if_neg one_ne_zero, if_pos one_pos]

/-- A positive finite base other than 1 with a nonzero finite exponent:
`powf` is the real power. -/
theorem F.powf_fin_pos (b e : ℝ) (hb : 0 < b) (hb1 : b ≠ 1) (he : e ≠ 0) :
    F.powf (F.fin b) (F.fin e) = F.fin (b ^ e) := by
  rw [F.powf, if_neg he, if_neg hb1, if_pos hb]
  rfl

/-- A negative finite base with an integer exponent: `powf` is the exact
signed integer power. -/
theorem F.powf_fin_neg_int (b : ℝ) (hb : b < 0) (m : ℤ) :
    F.powf (F.fin b) (F.fin (m : ℝ)) = F.fin (b ^ m) := by
  rcases eq_or_ne m 0 with hm | hm
  · subst hm
    rw [F.powf, if_pos (by norm_num)]
    norm_num
  · have hme : (m : ℝ) ≠ 0 := Int.cast_ne_zero.mpr hm
    rw [F.powf, if_neg hme, if_neg (by linarith : b ≠ 1),
      if_neg (not_lt.mpr hb.le), if_neg hb.ne]
    have hex : ∃ n : ℤ, (n : ℝ) = (m : ℝ) := ⟨m, rfl⟩
    rw [dif_pos hex]
    have : hex.choose = m := by exact_mod_cast hex.choose_spec
    rw [this]

/-- A negative finite base with a non-integer finite exponent: `powf` is NaN. -/
theorem F.powf_fin_neg_nonint (b e : ℝ) (hb : b < 0) (he : e ≠ 0)
    (hni : ¬ ∃ n : ℤ, (n : ℝ) = e) :
    F.powf (F.fin b) (F.fin e) = F.nan := by
  rw [F.powf, if_neg he, if_neg (by linarith : b ≠ 1),
    if_neg (not_lt.mpr hb.le), if_neg hb.ne, dif_neg hni]

/-- A finite base of magnitude above 1 raised to +inf is +inf. -/
theorem F.powf_fin_pinf_of_one_lt (b : ℝ) (hb : 1 < b) :
    F.powf (F.fin b) F.pinf = F.pinf := by
  rw [F.powf, if_neg (by push_neg; constructor <;> intro h <;> linarith),
    if_neg (by push_neg; intro h; linarith)]

theorem sweep_lambdas_length (s e : ℝ) (n : ℕ) :
    (sweep_lambdas s e n).length = n := by
  simp [sweep_lambdas]

theorem sweep_lambdas_get (s e : ℝ) (n k : ℕ)
    (hk : k < (sweep_lambdas s e n).length) :
    (sweep_lambdas s e n).get ⟨k, hk⟩ =
      F.mul (F.fin s) (F.powi (sweep_q s e n) k) := by
  simp [sweep_lambdas]

/-- With a single step the sequence is `[start_lambda]` for every `q`,
because `q.powi(0) = 1.0` for every `f64` base. -/
theorem sweep_lambdas_one (s e : ℝ) : sweep_lambdas s e 1 = [F.fin s] := by
  simp [sweep_lambdas, List.range_succ, F.powi_zero, F.mul_fin]

/-- For a valid positive configuration with at least two steps, `q` is the
finite real `(end/start) ^ (1/(steps-1))`. -/
theorem sweep_q_pos (s e : ℝ) (n : ℕ) (hs : 0 < s) (hse : s < e)
    (hn : 2 ≤ n) :
    sweep_q s e n = F.fin ((e / s) ^ (1 / ((n : ℝ) - 1))) := by
  have hratio : F.div (F.fin e) (F.fin s) = F.fin (e / s) :=
    F.div_fin_ne e s hs.ne.symm
  have hn1 : ((n - 1 : ℕ) : ℝ) = (n : ℝ) - 1 := by
    have : 1 ≤ n := by omega
    push_cast [Nat.cast_sub this]
    ring
  have hpos : (0 : ℝ) < (n : ℝ) - 1 := by
    have : (2 : ℝ) ≤ (n : ℝ) := by exact_mod_cast hn
    linarith
  have hexp : sweep_exponent n = F.fin (1 / ((n : ℝ) - 1)) := by
    rw [sweep_exponent, hn1, F.div_fin_ne _ _ hpos.ne.symm]
  have hone : 1 < e / s := (one_lt_div hs).mpr hse
  rw [sweep_q, hratio, hexp,
    F.powf_fin_pos _ _ (by linarith) hone.ne.symm
      (one_div_ne_zero hpos.ne.symm)]

theorem sweep_exponent_two : sweep_exponent 2 = F.fin 1 := by
  have h1 : ((2 - 1 : ℕ) : ℝ) = 1 := by norm_num
  rw [sweep_exponent, h1, F.div_fin_ne _ _ one_ne_zero]
  norm_num

theorem sweep_q_neg_one : sweep_q (-1) 1 2 = F.fin (-1) := by
  rw [sweep_q, sweep_exponent_two,
    F.div_fin_ne _ _ (by norm_num : (-1 : ℝ) ≠ 0)]
  have h1 : (1 : ℝ) / (-1) = -1 := by norm_num
  rw [h1]
  have h2 := F.powf_fin_neg_int (-1) (by norm_num) 1
  simpa using h2

theorem sweep_lambdas_neg_one :
    sweep_lambdas (-1) 1 2 = [F.fin (-1), F.fin 1] := by
  simp only [sweep_lambdas, sweep_q_neg_one]
  norm_num [List.range_succ, F.powi_fin, F.mul_fin]

/-- C1: for a positive sweep configuration with more than one step, the λ
sequence has exactly `steps` elements and its k-th element is
`λ_start · q^k` with `q = (λ_end/λ_start)^(1/(steps-1))`; for
λ_start = 0.01, λ_end = 1.0, steps = 3 the sequence is [0.01, 0.1, 1.0]
(exactly, under the model's exact arithmetic; ≈ in floating point). -/
theorem C1_lambda_sequence_geometric (s e : ℝ) (n : ℕ)
    (hs : 0 < s) (hse : s < e) (hn : 2 ≤ n) :
    (sweep_lambdas s e n).length = n ∧
    (∀ k (hk : k < (sweep_lambdas s e n).length),
      (sweep_lambdas s e n).get ⟨k, hk⟩ =
        F.fin (s * ((e / s) ^ (1 / ((n : ℝ) - 1))) ^ k)) ∧
    sweep_lambdas 0.01 1 3 = [F.fin 0.01, F.fin 0.1, F.fin 1] := by
  refine ⟨sweep_lambdas_length s e n, ?_, ?_⟩
  · intro k hk
    rw [sweep_lambdas_get, sweep_q_pos s e n hs hse hn, F.powi_fin, F.mul_fin]
  · have hq : sweep_q 0.01 1 3 = F.fin 10 := by
      rw [sweep_q_pos 0.01 1 3 (by norm_num) (by norm_num) (by norm_num)]
      have h1 : (1 : ℝ) / 0.01 = 100 := by norm_num
      have h2 : (1 : ℝ) / (((3 : ℕ) : ℝ) - 1) = 1 / 2 := by norm_num
      rw [h1, h2]
      have h3 : ((100 : ℝ) ^ ((1 : ℝ) / 2) : ℝ) = 10 := by
        rw [show (100 : ℝ) = (10 : ℝ) ^ (2 : ℕ) by norm_num,
          ← Real.rpow_natCast 10 2,
          ← Real.rpow_mul (by norm_num : (0 : ℝ) ≤ 10)]
        norm_num [Real.rpow_one]
      rw [h3]
    simp only [sweep_lambdas, hq]
    norm_num [List.range_succ, F.powi_fin, F.mul_fin]

/-- C1 witness at the spec's example configuration. -/
theorem C1_lambda_sequence_geometric_witness :
    (sweep_lambdas 0.01 1 3).length = 3 ∧
    sweep_lambdas 0.01 1 3 = [F.fin 0.01, F.fin 0.1, F.fin 1] :=
  ⟨(C1_lambda_sequence_geometric 0.01 1 3 (by norm_num) (by norm_num)
      (by norm_num)).1,
   (C1_lambda_sequence_geometric 0.01 1 3 (by norm_num) (by norm_num)
      (by norm_num)).2.2⟩

/-- C2 counterexample: λ_start = -1 ≤ 0 with λ_end = 1 passes validation,
and a λ sequence whose first value is -1 ≤ 0 is dispatched to the solver
units — the precondition violation λ ≤ 0 is not rejected before solver
work begins. -/
theorem C2_counterexample :
    (-1 : ℝ) ≤ 0 ∧
    mainDispatch (-1) 1 ⟨2, by norm_num⟩ = some (sweep_lambdas (-1) 1 2) ∧
    (sweep_lambdas (-1) 1 2).head? = some (F.fin (-1)) := by
  refine ⟨by norm_num, ?_, ?_⟩
  · rw [mainDispatch, if_pos (by norm_num : (-1 : ℝ) < 1)]
    rfl
  · rw [sweep_lambdas_neg_one]; rfl

/-- C2 (amended): steps = 0 is rejected at CLI parsing (the `NonZeroUsize`
argument type) and λ_start ≥ λ_end is rejected by `validate_args` before
anything is dispatched; but λ ≤ 0 is not validated — a non-positive
λ_start below λ_end passes validation and its λ values are dispatched. -/
theorem C2_validation_boundary :
    parseSteps 0 = none ∧
    (∀ (s e : ℝ) (st : ℕ+), ¬ s < e → mainDispatch s e st = none) ∧
    mainDispatch (-1) 1 ⟨2, by norm_num⟩ = some (sweep_lambdas (-1) 1 2) ∧
    (sweep_lambdas (-1) 1 2).head? = some (F.fin (-1)) := by
  refine ⟨rfl, ?_, ?_, ?_⟩
  · intro s e st h
    rw [mainDispatch, if_neg h]
  · rw [mainDispatch, if_pos (by norm_num : (-1 : ℝ) < 1)]
    rfl
  · rw [sweep_lambdas_neg_one]; rfl

/-- C2 witness: a configuration with λ_start ≥ λ_end dispatches nothing. -/
theorem C2_validation_boundary_witness :
    mainDispatch 1 0 ⟨3, by norm_num⟩ = none :=
  C2_validation_boundary.2.1 1 0 ⟨3, by norm_num⟩ (by norm_num)

/-- C3: when every per-λ unit succeeds, the parallel branch and the
sequential fallback of `main` produce identical outcomes, for every
scheduling of the worker threads — the choice of execution strategy never
changes the result. -/
theorem C3_determinism {α : Type} (den : F → Option α) (finished : F → Bool)
    (ls : List F) (h : ∀ l ∈ ls, (den l).isSome = true) :
    mainRun true den finished ls = mainRun false den finished ls := by
  show runParallel den finished ls = runSequential den ls
  induction ls with
  | nil => rfl
  | cons l ls ih =>
    obtain ⟨r, hr⟩ := Option.isSome_iff_exists.mp (h l (by simp))
    have ih2 := ih (fun x hx => h x (by simp [hx]))
    simp [runParallel, runSequential, hr, ih2]

/-- C3 witness on a concrete two-λ sweep with a constant unit, under an
adversarial schedule that would lose every raced save. -/
theorem C3_determinism_witness :
    mainRun true (fun _ => some (0 : ℕ)) (fun _ => false)
        [F.fin 1, F.fin 2] =
      mainRun false (fun _ => some (0 : ℕ)) (fun _ => false)
        [F.fin 1, F.fin 2] :=
  C3_determinism (fun _ => some (0 : ℕ)) (fun _ => false)
    [F.fin 1, F.fin 2] (fun _ _ => rfl)

/-- C4 counterexample: in the sequential fallback, the failing unit for
the first λ (NaN) aborts the sweep before the sibling unit for λ = 2 ever
runs; that sibling would succeed under `denFail`, yet the outcome saves
nothing — the driver does not return the successful results of all
sibling λ values. -/
theorem C4_counterexample :
    runSequential denFail [F.nan, F.fin 2] =
      ⟨[], some F.nan⟩ ∧
    denFail (F.fin 2) = some 0 :=
  ⟨rfl, rfl⟩

/-- C4 (amended): a unit's abnormal termination is surfaced tagged with
the offending λ, the first failing λ in join order.  No sibling receives
a cancellation signal, but only results of siblings joined before the
failure are guaranteed: in the parallel branch every successful unit
before the first failing λ is saved, while a sibling after it is saved
exactly when its unit succeeds and its thread finishes before the
process exits on the surfaced panic; in the sequential fallback the
sweep stops at the first failing λ — the outputs of the units before it
are saved and units for later λ values never run. -/
theorem C4_failure_isolation {α : Type} (den : F → Option α)
    (finished : F → Bool) (ls : List F) :
    (runParallel den finished ls).failure =
      ls.find? (fun l => (den l).isNone) ∧
    (runParallel den finished ls).saved =
      (ls.takeWhile (fun l => (den l).isSome)).filterMap
        (fun l => (den l).map (fun r => (l, r))) ++
      ((ls.dropWhile (fun l => (den l).isSome)).tail).filterMap
        (fun x => if finished x then (den x).map (fun r => (x, r))
         else none) ∧
    (runSequential den ls).saved =
      (ls.takeWhile (fun l => (den l).isSome)).filterMap
        (fun l => (den l).map (fun r => (l, r))) ∧
    (runSequential den ls).failure =
      (ls.dropWhile (fun l => (den l).isSome)).head? := by
  induction ls with
  | nil => exact ⟨rfl, rfl, rfl, rfl⟩
  | cons l ls ih =>
    obtain ⟨ih1, ih2, ih3, ih4⟩ := ih
    cases hr : den l with
    | some r =>
      refine ⟨?_, ?_, ?_, ?_⟩ <;>
        simp [runParallel, runSequential, hr, ih1, ih2, ih3, ih4,
          List.filterMap_cons, List.find?_cons, List.takeWhile_cons,
          List.dropWhile_cons]
    | none =>
      refine ⟨?_, ?_, ?_, ?_⟩ <;>
        simp [runParallel, runSequential, hr,
          List.filterMap_cons, List.find?_cons, List.takeWhile_cons,
          List.dropWhile_cons]

/-- C5: every dispatched unit receives exactly τ = 1/√2, σ = 1/(8·τ) and
γ = 0.35·λ, where λ is the unit's own λ — the derivation does not depend
on the position in the sequence. -/
theorem C5_parameter_derivation (s e : ℝ) (n k : ℕ)
    (hk : k < (sweepUnits s e n).length) :
    ((sweepUnits s e n).get ⟨k, hk⟩).2 =
      (1 / Real.sqrt 2, 1 / (8 * (1 / Real.sqrt 2)),
       F.mul (F.fin 0.35) (((sweepUnits s e n).get ⟨k, hk⟩).1)) := by
  simp [sweepUnits, denoiseParamsF, denoise_tau, denoise_sigma,
    denoise_gamma]

/-- C5 witness at the example configuration, position 1. -/
theorem C5_parameter_derivation_witness :
    ((sweepUnits 0.01 1 3).get
        ⟨1, by norm_num [sweepUnits, sweep_lambdas_length]⟩).2 =
      (1 / Real.sqrt 2, 1 / (8 * (1 / Real.sqrt 2)),
       F.mul (F.fin 0.35)
         (((sweepUnits 0.01 1 3).get
             ⟨1, by norm_num [sweepUnits, sweep_lambdas_length]⟩).1)) :=
  C5_parameter_derivation 0.01 1 3 1 _

/-- C6 counterexample: at the spec's own scenario (λ_start = 0.05,
λ_end = 2.0, steps = 1), the exponent computation `1/(steps-1)` does
divide by zero — the `usize` subtraction gives 0 and the `f64` division of
1 by 0 is performed, yielding +inf — and the ratio/q is computed (q = +inf);
the sequence is nevertheless [0.05]. -/
theorem C6_counterexample :
    ((1 : ℕ) - 1 : ℕ) = 0 ∧
    sweep_exponent 1 = F.div (F.fin 1) (F.fin 0) ∧
    F.div (F.fin 1) (F.fin 0) = F.pinf ∧
    sweep_lambdas 0.05 2 1 = [F.fin 0.05] := by
  have h0 : ((1 - 1 : ℕ) : ℝ) = 0 := by norm_num
  refine ⟨rfl, ?_, F.div_one_zero, sweep_lambdas_one 0.05 2⟩
  rw [sweep_exponent, h0]

/-- C6 (amended): when steps = 1 the λ sequence is exactly [λ_start] for
every λ_start, λ_end; the ratio and exponent are still computed — the
exponent divides 1 by 0 in `f64` arithmetic, yielding +inf without a
panic — but `q.powi(0) = 1` for every base, so the single λ is exactly
λ_start. -/
theorem C6_steps_one_sequence (s e : ℝ) :
    sweep_lambdas s e 1 = [F.fin s] ∧ sweep_exponent 1 = F.pinf := by
  have h0 : ((1 - 1 : ℕ) : ℝ) = 0 := by norm_num
  refine ⟨sweep_lambdas_one s e, ?_⟩
  rw [sweep_exponent, h0, F.div_one_zero]

/-- C8 counterexample: for λ_start = -1 < 0 < 1 = λ_end and steps = 2 > 1,
the exponent 1/(steps-1) is the integer 1, so `powf` of the negative ratio
is finite: q = -1 is not NaN and the dispatched sequence [-1, 1] has no
NaN at all. -/
theorem C8_counterexample :
    sweep_q (-1) 1 2 = F.fin (-1) ∧
    sweep_lambdas (-1) 1 2 = [F.fin (-1), F.fin 1] ∧
    F.fin (-1) ≠ F.nan ∧ F.fin 1 ≠ F.nan := by
  refine ⟨sweep_q_neg_one, sweep_lambdas_neg_one, ?_, ?_⟩ <;> simp

/-- C8 (amended): for λ_start < 0 < λ_end, when steps > 2 the exponent
1/(steps-1) is a non-integer in (0,1), q is NaN and every λ after the
first is NaN; when steps = 2 the exponent is 1 and q = λ_end/λ_start is
finite and negative. -/
theorem C8_negative_start_nan (s e : ℝ) (hs : s < 0) (he : 0 < e) :
    (∀ n : ℕ, 3 ≤ n →
      sweep_q s e n = F.nan ∧
      (∀ k (hk : k < (sweep_lambdas s e n).length), 1 ≤ k →
        (sweep_lambdas s e n).get ⟨k, hk⟩ = F.nan)) ∧
    sweep_q s e 2 = F.fin (e / s) ∧ e / s < 0 := by
  have hsne : s ≠ 0 := hs.ne
  have hneg : e / s < 0 := div_neg_of_pos_of_neg he hs
  refine ⟨?_, ?_, hneg⟩
  · intro n hn
    have hq : sweep_q s e n = F.nan := by
      have hn1 : ((n - 1 : ℕ) : ℝ) = (n : ℝ) - 1 := by
        push_cast [Nat.cast_sub (by omega : 1 ≤ n)]
        ring
      have h2 : (2 : ℝ) ≤ (n : ℝ) - 1 := by
        have h3 : (3 : ℝ) ≤ (n : ℝ) := by exact_mod_cast hn
        linarith
      have hex : sweep_exponent n = F.fin (1 / ((n : ℝ) - 1)) := by
        rw [sweep_exponent, hn1, F.div_fin_ne _ _ (by linarith)]
      have he0 : 0 < 1 / ((n : ℝ) - 1) := by positivity
      have he1 : 1 / ((n : ℝ) - 1) < 1 := by
        rw [div_lt_one (by linarith)]
        linarith
      have hni : ¬ ∃ m : ℤ, (m : ℝ) = 1 / ((n : ℝ) - 1) := by
        rintro ⟨m, hm⟩
        rcases le_or_lt m 0 with hm0 | hm0
        · have : (m : ℝ) ≤ 0 := by exact_mod_cast hm0
          linarith
        · have hm1 : (1 : ℤ) ≤ m := hm0
          have : (1 : ℝ) ≤ (m : ℝ) := by exact_mod_cast hm1
          linarith
      rw [sweep_q, F.div_fin_ne _ _ hsne, hex]
      exact F.powf_fin_neg_nonint _ _ hneg (by linarith) hni
    refine ⟨hq, ?_⟩
    intro k hk hk1
    rw [sweep_lambdas_get, hq, F.powi_nan k hk1, F.mul_nan]
  · rw [sweep_q, sweep_exponent_two, F.div_fin_ne _ _ hsne]
    have h4 := F.powf_fin_neg_int (e / s) hneg 1
    simpa using h4

/-- C8 witness: at λ_start = -1, λ_end = 1, q is NaN with 3 steps and the
finite negative ratio with 2 steps. -/
theorem C8_negative_start_nan_witness :
    sweep_q (-1) 1 3 = F.nan ∧ sweep_q (-1) 1 2 = F.fin ((1 : ℝ) / (-1)) :=
  ⟨((C8_negative_start_nan (-1) 1 (by norm_num) (by norm_num)).1 3
      (by norm_num)).1,
   (C8_negative_start_nan (-1) 1 (by norm_num) (by norm_num)).2.1⟩

/-- C9: with steps = 1 and 0 < λ_start < λ_end, the exponent is computed
as the `f64` division 1/0 = +inf, q = (λ_end/λ_start)^(+inf) = +inf with
no panic, and the single λ produced equals λ_start exactly because
`powi(0) = 1` for every `f64` base. -/
theorem C9_steps_one_ratio_computed (s e : ℝ) (hs : 0 < s) (hse : s < e) :
    sweep_exponent 1 = F.pinf ∧ sweep_q s e 1 = F.pinf ∧
    sweep_lambdas s e 1 = [F.fin s] := by
  have h0 : ((1 - 1 : ℕ) : ℝ) = 0 := by norm_num
  have hexp : sweep_exponent 1 = F.pinf := by
    rw [sweep_exponent, h0, F.div_one_zero]
  refine ⟨hexp, ?_, sweep_lambdas_one s e⟩
  rw [sweep_q, hexp, F.div_fin_ne _ _ hs.ne.symm]
  exact F.powf_fin_pinf_of_one_lt _ ((one_lt_div hs).mpr hse)

/-- C9 witness at the spec's steps = 1 scenario. -/
theorem C9_steps_one_ratio_computed_witness :
    sweep_q 0.05 2 1 = F.pinf ∧ sweep_lambdas 0.05 2 1 = [F.fin 0.05] :=
  ⟨(C9_steps_one_ratio_computed 0.05 2 (by norm_num) (by norm_num)).2.1,
   (C9_steps_one_ratio_computed 0.05 2 (by norm_num) (by norm_num)).2.2⟩

/-- C10: for 0 < λ_start < λ_end and steps ≥ 1 the generated sequence
starts exactly at λ_start and is monotonically non-decreasing. -/
theorem C10_starts_at_start_monotone (s e : ℝ) (n : ℕ)
    (hs : 0 < s) (hse : s < e) (hn : 1 ≤ n) :
    (sweep_lambdas s e n).head? = some (F.fin s) ∧
    List.Chain' F.Le (sweep_lambdas s e n) := by
  constructor
  · obtain ⟨m, rfl⟩ : ∃ m, n = m + 1 := ⟨n - 1, by omega⟩
    rw [sweep_lambdas, List.range_succ_eq_map]
    simp [F.powi_zero, F.mul_fin]
  · rcases eq_or_lt_of_le hn with h1 | h2
    · rw [← h1, sweep_lambdas_one]
      simp
    · have hn2 : 2 ≤ n := h2
      have hq := sweep_q_pos s e n hs hse hn2
      have hpos : (0 : ℝ) < (n : ℝ) - 1 := by
        have : (2 : ℝ) ≤ (n : ℝ) := by exact_mod_cast hn2
        linarith
      have hone : 1 < e / s := (one_lt_div hs).mpr hse
      have hq1 : 1 < (e / s) ^ (1 / ((n : ℝ) - 1)) := by
        rw [Real.one_lt_rpow_iff_of_pos (by linarith)]
        exact Or.inl ⟨hone, by positivity⟩
      rw [List.chain'_iff_get]
      intro i hi
      rw [sweep_lambdas_get, sweep_lambdas_get, hq, F.powi_fin, F.powi_fin,
        F.mul_fin, F.mul_fin]
      show s * ((e / s) ^ (1 / ((n : ℝ) - 1))) ^ i ≤
        s * ((e / s) ^ (1 / ((n : ℝ) - 1))) ^ (i + 1)
      exact mul_le_mul_of_nonneg_left
        (pow_le_pow_right₀ hq1.le (Nat.le_succ i)) hs.le

/-- C10 witness at the example configuration. -/
theorem C10_starts_at_start_monotone_witness :
    (sweep_lambdas 0.01 1 3).head? = some (F.fin 0.01) ∧
    List.Chain' F.Le (sweep_lambdas 0.01 1 3) :=
  C10_starts_at_start_monotone 0.01 1 3 (by norm_num) (by norm_num)
    (by norm_num)

theorem matNorm_sub_self {m n : ℕ} (u : Mat m n) :
    matNorm (matSub u u) = 0 := by
  simp [matNorm, matSub]

theorem relChange_self {m n : ℕ} (u : Mat m n) : relChange u u = 0 := by
  rw [relChange]
  rcases eq_or_ne (matNorm u) 0 with h | h
  · rw [if_pos h, matNorm_sub_self]
  · rw [if_neg h, matNorm_sub_self, zero_div]

/-- Running the loop with no iteration ever meeting the threshold stops
`exhausted` after exactly `fuel` iterations, returning the last iterate. -/
theorem solveLoop_exhausted {m n : ℕ} (step : CPState m n → CPState m n)
    (thr : ℝ) :
    ∀ fuel, 1 ≤ fuel → ∀ s : CPState m n,
      (∀ k, k + 1 ≤ fuel →
        ¬ relChange ((step^[k]) s).u ((step^[k + 1]) s).u < thr) →
      solveLoop step thr s fuel = (((step^[fuel]) s).u, SolveStatus.exhausted)
  | 0, h, _, _ => absurd h (by omega)
  | 1, _, s, hall => by
    have h0 := hall 0 (by omega)
    simp only [zero_add, Function.iterate_zero, id_eq,
      Function.iterate_one] at h0
    simp only [solveLoop, if_neg h0, Function.iterate_one]
  | k + 2, _, s, hall => by
    have h0 := hall 0 (by omega)
    simp only [zero_add, Function.iterate_zero, id_eq,
      Function.iterate_one] at h0
    have ih := solveLoop_exhausted step thr (k + 1) (by omega) (step s)
      (fun j hj => by
        have hj2 := hall (j + 1) (by omega)
        simpa [Function.iterate_succ_apply] using hj2)
    simp only [solveLoop, if_neg h0]
    rw [ih, ← Function.iterate_succ_apply]

/-- Running the loop when iteration `N` (0-indexed) is the first to meet
the threshold, with `N + 1 ≤ fuel`, stops `converged` at that iteration,
returning the iterate `u_{N+1}`. -/
theorem solveLoop_converged {m n : ℕ} (step : CPState m n → CPState m n)
    (thr : ℝ) :
    ∀ fuel (s : CPState m n) (N : ℕ), N + 1 ≤ fuel →
      relChange ((step^[N]) s).u ((step^[N + 1]) s).u < thr →
      (∀ j, j < N →
        ¬ relChange ((step^[j]) s).u ((step^[j + 1]) s).u < thr) →
      solveLoop step thr s fuel =
        (((step^[N + 1]) s).u, SolveStatus.converged)
  | 0, _, _, hle, _, _ => absurd hle (by omega)
  | 1, s, N, hle, hN, _ => by
    have hN0 : N = 0 := by omega
    subst hN0
    simp only [zero_add, Function.iterate_zero, id_eq,
      Function.iterate_one] at hN ⊢
    simp only [solveLoop, if_pos hN]
  | k + 2, s, 0, _, hN, _ => by
    simp only [zero_add, Function.iterate_zero, id_eq,
      Function.iterate_one] at hN ⊢
    simp only [solveLoop, if_pos hN]
  | k + 2, s, N + 1, hle, hN, hprev => by
    have h0 := hprev 0 (by omega)
    simp only [zero_add, Function.iterate_zero, id_eq,
      Function.iterate_one] at h0
    have ih := solveLoop_converged step thr (k + 1) (step s) N (by omega)
      (by simpa [Function.iterate_succ_apply] using hN)
      (fun j hj => by
        have hj2 := hprev (j + 1) (by omega)
        simpa [Function.iterate_succ_apply] using hj2)
    simp only [solveLoop, if_neg h0]
    rw [ih, ← Function.iterate_succ_apply]

/-- One solver step on a constant 1×1 channel from the initial state
reproduces the channel exactly. -/
theorem cpStep_const_u (c lam tau sigma gamma : ℝ)
    (h1 : 1 + tau * lam ≠ 0) :
    (cpStep lam gamma (constMat 1 1 c)
      (cpInit (constMat 1 1 c) tau sigma)).u = constMat 1 1 c := by
  funext i j
  simp only [cpStep, cpInit, constMat, gradX, gradY, divg, Fin.val_eq_zero]
  norm_num
  field_simp
  ring

/-- C7: the single-channel solver's stopping policy.  The relative change
is `‖uₙ₊₁-uₙ‖/‖uₙ‖`, taken without the division when `‖uₙ‖ = 0`; the
solver stops `converged` at the first iteration whose relative change
falls below the threshold and otherwise stops `exhausted` after
`max_iter` iterations; in both cases the returned matrix is the final
iterate `uₙ₊₁`, and `exhausted` is an ordinary result, not an error. -/
theorem C7_solver_stopping {m n : ℕ} (f : Mat m n)
    (lam tau sigma gamma thr : ℝ) (max_iter : ℕ) (hmi : 1 ≤ max_iter) :
    (∀ (u v : Mat m n), matNorm u = 0 →
      relChange u v = matNorm (matSub v u)) ∧
    (∀ N, N + 1 ≤ max_iter →
      relChange (cpTraj f lam tau sigma gamma N).u
        (cpTraj f lam tau sigma gamma (N + 1)).u < thr →
      (∀ j, j < N →
        ¬ relChange (cpTraj f lam tau sigma gamma j).u
            (cpTraj f lam tau sigma gamma (j + 1)).u < thr) →
      singleChannelSolve f lam tau sigma gamma max_iter thr =
        ((cpTraj f lam tau sigma gamma (N + 1)).u,
          SolveStatus.converged)) ∧
    ((∀ k, k + 1 ≤ max_iter →
      ¬ relChange (cpTraj f lam tau sigma gamma k).u
          (cpTraj f lam tau sigma gamma (k + 1)).u < thr) →
      singleChannelSolve f lam tau sigma gamma max_iter thr =
        ((cpTraj f lam tau sigma gamma max_iter).u,
          SolveStatus.exhausted)) := by
  refine ⟨?_, ?_, ?_⟩
  · intro u v hu
    rw [relChange, if_pos hu]
  · intro N hle hN hprev
    exact solveLoop_converged (cpStep lam gamma f) thr max_iter
      (cpInit f tau sigma) N hle hN hprev
  · intro hall
    exact solveLoop_exhausted (cpStep lam gamma f) thr max_iter hmi
      (cpInit f tau sigma) hall

/-- C7 witness: on the constant 1×1 channel of value 10 with λ = 1,
τ = 1/√2, σ = 1/(8τ), γ = 0.35, max_iter = 50 and threshold 1e-6, the
solver stops `converged` at the first iteration and returns the input
unchanged (the spec's constant-input scenario). -/
theorem C7_solver_stopping_witness :
    singleChannelSolve (constMat 1 1 10) 1 (1 / Real.sqrt 2)
        (1 / (8 * (1 / Real.sqrt 2))) 0.35 50 (1e-6) =
      (constMat 1 1 10, SolveStatus.converged) := by
  have hs2 : (0 : ℝ) < Real.sqrt 2 := Real.sqrt_pos.mpr (by norm_num)
  have h1 : (1 : ℝ) + (1 / Real.sqrt 2) * 1 ≠ 0 := by positivity
  have hu1 : (cpTraj (constMat 1 1 10) 1 (1 / Real.sqrt 2)
      (1 / (8 * (1 / Real.sqrt 2))) 0.35 1).u = constMat 1 1 10 :=
    cpStep_const_u 10 1 (1 / Real.sqrt 2) (1 / (8 * (1 / Real.sqrt 2)))
      0.35 h1
  have h0 : (cpTraj (constMat 1 1 10) 1 (1 / Real.sqrt 2)
      (1 / (8 * (1 / Real.sqrt 2))) 0.35 0).u = constMat 1 1 10 := rfl
  have hrel : relChange
      (cpTraj (constMat 1 1 10) 1 (1 / Real.sqrt 2)
        (1 / (8 * (1 / Real.sqrt 2))) 0.35 0).u
      (cpTraj (constMat 1 1 10) 1 (1 / Real.sqrt 2)
        (1 / (8 * (1 / Real.sqrt 2))) 0.35 (0 + 1)).u < 1e-6 := by
    simp only [zero_add, h0, hu1, relChange_self]
    norm_num
  have happ := (C7_solver_stopping (constMat 1 1 10) 1 (1 / Real.sqrt 2)
      (1 / (8 * (1 / Real.sqrt 2))) 0.35 (1e-6) 50 (by norm_num)).2.1 0
      (by norm_num) hrel (fun j hj => absurd hj (Nat.not_lt_zero j))
  rw [happ]
  simp only [zero_add, hu1]
